import Mathlib

/-!
A shallow embedding of `multithreading/process.py` (the parallel-invocation
harness) in Lean 4, together with theorems checking the repository's
natural-language specification against the code.

Modelling conventions:
* Python values used as identifiers are modelled by the inductive `Ident`,
  which carries Python truthiness (`Ident.truthy`); a function object is
  identified by an identity tag (`Ident.func fid`), matching Python's
  identity-based equality of callables.
* Time is an abstract clock (`Nat`).  `datetime.now()` reads the clock; pure
  computation takes zero time; only `time.sleep` advances the clock.  This is
  the standard sequential abstraction of the timing behaviour.
* Threads are modelled sequentially: `Caller.start` assigns a worker-handle
  tag and runs the invocation synchronously.  An exception raised by the
  target dies on the worker (it is dropped by `start`), exactly as an
  uncaught exception on a Python worker thread does not reach the
  orchestrator.
* A target callable is a `Func V`: an identity tag plus a function from
  positional and keyword arguments to `Except String V` (`.error` models a
  raised exception).
-/

set_option autoImplicit false

namespace Multithreading

/-- A Python value usable as a `Caller` identifier, with Python truthiness.
`func fid` stands for a function object with identity tag `fid`. -/
inductive Ident where
  | none
  | bool (b : Bool)
  | int (n : Int)
  | str (s : String)
  | func (fid : Nat)
  deriving DecidableEq, Repr

/-- Python truthiness of an identifier value (`bool(x)`). -/
def Ident.truthy : Ident → Bool
  | .none => false
  | .bool b => b
  | .int n => n != 0
  | .str s => s != ""
  | .func _ => true

/-- `ProcessTime`: immutable start/end timestamp pair (`process.py` lines
27-47).  The source field `end` is a Lean keyword, so it is written `«end»`. -/
structure ProcessTime where
  start : Nat
  «end» : Nat
  deriving DecidableEq, Repr

/-- Derived duration `end - start` (the `time` property). -/
def ProcessTime.time (t : ProcessTime) : Int :=
  (t.«end» : Int) - (t.start : Int)

/-- `CallResult`: immutable record of a completed call (`process.py` lines
51-61).  The worker handle `thread` is modelled by its identity tag. -/
structure CallResult (V : Type) where
  returns : Option V := Option.none
  thread : Option Nat := Option.none
  time : Option ProcessTime := Option.none
  deriving DecidableEq, Repr

/-- A Python callable: an identity tag (Python compares functions by
identity) plus its behaviour on positional and keyword arguments.
`.error` models raising an exception. -/
structure Func (V : Type) where
  fid : Nat
  run : List V → List (String × V) → Except String V

/-- The mutable state of a `Caller` object (`process.py` lines 63-176):
target, identifier, stored args/kwargs, the `called`/`complete` flags, the
worker handle `_thread` and the stored `_result`. -/
structure Caller (V : Type) where
  target : Func V
  identifier : Ident
  args : List V
  kwargs : List (String × V)
  complete : Bool
  called : Bool
  thread : Option Nat
  result : Option (CallResult V)

variable {V : Type}

/-- `Caller.__init__` (lines 74-100): stores the target, `args or ()`,
`kwargs or {}`, and `identifier or self.target` — a falsy identifier
argument (including the default `None`) is replaced by the target itself.
Flags start false, thread and result start `None`. -/
def Caller.init (target : Func V) (identifier : Ident := .none)
    (args : List V := []) (kwargs : List (String × V) := []) : Caller V :=
  { target := target
    args := args
    kwargs := kwargs
    identifier := if identifier.truthy then identifier else .func target.fid
    complete := false
    called := false
    thread := Option.none
    result := Option.none }

/-- `Caller.__call__` (lines 102-131).  `self.args = args or self.args` and
`self.kwargs = kwargs or self.kwargs` (truthy override: an empty override
falls back to the stored values), sets `called`, runs the target on the
stored values; on success sets `complete`, stores and returns a
`CallResult`; a raised exception propagates (`.error`) leaving `complete`
and `_result` untouched.  `t` is the current clock; the call itself takes
zero abstract time. -/
def Caller.call (c : Caller V) (args : List V) (kwargs : List (String × V))
    (t : Nat) : Caller V × Except String (CallResult V) :=
  let start := t
  let args' := if args.isEmpty then c.args else args
  let kwargs' := if kwargs.isEmpty then c.kwargs else kwargs
  let c1 : Caller V := { c with args := args', kwargs := kwargs', called := true }
  match c.target.run args' kwargs' with
  | .error e => (c1, .error e)
  | .ok returns =>
    let result : CallResult V :=
      { returns := some returns
        thread := c.thread
        time := some { start := start, «end» := t } }
    ({ c1 with complete := true, result := some result }, .ok result)

/-- `Caller.reset` (lines 163-168): clears the `called` and `complete`
flags only. -/
def Caller.reset (c : Caller V) : Caller V :=
  { c with called := false, complete := false }

/-- `Caller.clean` (lines 170-175): clears `_thread` and `_result`. -/
def Caller.clean (c : Caller V) : Caller V :=
  { c with thread := Option.none, result := Option.none }

/-- `Caller.start` (lines 155-161): creates a worker thread (modelled by the
tag `tid`), stores its handle, and runs `self()` on it.  In the sequential
model the invocation happens synchronously; an exception raised by the
target dies on the worker thread and is dropped here, never reaching the
orchestrator. -/
def Caller.start (c : Caller V) (tid : Nat) (t : Nat) : Caller V :=
  (Caller.call { c with thread := some tid } [] [] t).1

/-- `CallDefinition` (lines 224-300): the wait policy.  The constructor's
`None`-means-default arguments are modelled by Lean default field values,
which equal the class constants `WAIT` .. `SLEEP`.  The sleep interval is
measured in abstract clock ticks (the source default is 0.0001 s). -/
structure CallDefinition where
  wait : Bool := true
  reset_before : Bool := true
  reset_after : Bool := false
  clean_before : Bool := true
  clean_after : Bool := false
  dynamic : Bool := false
  sleep : Nat := 1
  deriving DecidableEq, Repr

/-- The body of `await_completion`'s `while True` loop (lines 404-424),
with explicit fuel.  Each iteration captures the iteration start instant,
breaks when `not (definition.wait and not all(caller.complete))`, and
otherwise sleeps `max(0, sleep - (time.time() - current))`: in the
sequential model the completion check takes zero time, so each non-exiting
iteration advances the clock by exactly `definition.sleep` (the `dynamic`
re-read returns the same, immutable, policy value).  Returns the clock at
loop exit, or `Option.none` when the fuel runs out before the loop exits. -/
def awaitLoop (callers : List (Caller V)) (definition : CallDefinition)
    (t : Nat) : Nat → Option Nat
  | 0 => Option.none
  | fuel + 1 =>
    if definition.wait && !(callers.all fun c => c.complete) then
      awaitLoop callers definition (t + definition.sleep) fuel
    else
      some t

/-- `await_completion` (lines 383-429): records the start clock, runs the
polling loop, and returns the `ProcessTime` spanning the wait together with
the final clock.  `Option.none` models non-termination of the loop within
`fuel` iterations. -/
def await_completion (callers : List (Caller V)) (definition : CallDefinition)
    (t : Nat) (fuel : Nat) : Option (ProcessTime × Nat) :=
  (awaitLoop callers definition t fuel).map fun t2 =>
    ({ start := t, «end» := t2 }, t2)

/-- `CallsResults` (lines 302-357): the result set of one orchestration
run.  The Python `Dict[Caller, CallResult]` preserves insertion order and
keys callers by identity, so it is modelled as an association list in input
order; the snapshot `caller.result` may be `None` for incomplete callers. -/
structure CallsResults (V : Type) where
  results : List (Caller V × Option (CallResult V))
  time : ProcessTime
  waiting : ProcessTime
  definition : CallDefinition

/-- `CallsResults.caller` (lines 314-334): linear scan over the mapping for
the first caller whose identifier equals the argument; on no match raises
`ValueError` whose message lists all known identifiers (modelled by the
error payload). -/
def CallsResults.caller (cr : CallsResults V) (identifier : Ident) :
    Except (List Ident) (Caller V) :=
  match cr.results.find? (fun p => p.1.identifier == identifier) with
  | some p => .ok p.1
  | Option.none => .error (cr.results.map fun p => p.1.identifier)

/-- `CallsResults.result` (lines 336-356): like `CallsResults.caller` but
iterates `self.results.items()` and returns the result mapped to the first
matching caller. -/
def CallsResults.result (cr : CallsResults V) (identifier : Ident) :
    Except (List Ident) (Option (CallResult V)) :=
  match cr.results.find? (fun p => p.1.identifier == identifier) with
  | some p => .ok p.2
  | Option.none => .error (cr.results.map fun p => p.1.identifier)

/-- An element of the orchestrator's input collection: either a genuine
`Caller` object or some other Python value (represented by an `Ident`
payload), for `isinstance` validation. -/
inductive PyObj (V : Type) where
  | caller (c : Caller V)
  | other (v : Ident)

/-- `isinstance(value, Caller)`. -/
def PyObj.isCaller : PyObj V → Bool
  | .caller _ => true
  | .other _ => false

/-- The Python error raised by the harness on the orchestrator thread:
`ValueError` with a message naming the whole input collection
(`f"Callers must be an iterable of {Caller} objects, not: {data}."`),
modelled by carrying the collection as the payload. -/
inductive PyErr (V : Type) where
  | valueError (data : List (PyObj V))

/-- `validate_callers` (lines 359-381): if any element of `data` is not a
`Caller` instance, raises `ValueError` naming the data; otherwise returns
the data unchanged. -/
def validate_callers (data : List (PyObj V)) :
    Except (PyErr V) (List (PyObj V)) :=
  if data.all PyObj.isCaller then .ok data
  else .error (.valueError data)

/-- Extracts the `Caller` objects from a validated collection (identity on
collections that passed `validate_callers`). -/
def extractCallers (data : List (PyObj V)) : List (Caller V) :=
  data.filterMap fun
    | .caller c => some c
    | .other _ => Option.none

/-- `[caller.start() for caller in callers]` (line 460): starts one worker
per caller; worker-handle tags are assigned consecutively from `tid`. -/
def startAll (callers : List (Caller V)) (tid : Nat) (t : Nat) :
    List (Caller V) :=
  match callers with
  | [] => []
  | c :: rest => c.start tid t :: startAll rest (tid + 1) t

/-- The outcome of an orchestration run: normal return, a raised Python
error, or divergence (the completion wait never terminates). -/
inductive Outcome (V : Type) (α : Type) where
  | ok (a : α)
  | err (e : PyErr V)
  | diverge

/-- `multi_threaded_defined_call` (lines 431-484): validates the input
(before any thread is started), applies the default policy when none is
given, applies `clean_before`/`reset_before`, starts every caller, waits
via `await_completion`, snapshots `{caller: caller.result}`, then applies
`reset_after`/`clean_after`, and assembles the `CallsResults`.  Returns the
result set, the final caller states, and the final clock.  Since caller
states do not change while the orchestrator waits in this sequential model,
the wait loop's first completion check already decides termination, so the
wait is run with fuel 1 and `Outcome.diverge` is returned when it does not
exit. -/
def multi_threaded_defined_call (data : List (PyObj V))
    (definition : Option CallDefinition := Option.none) (t : Nat) :
    Outcome V (CallsResults V × List (Caller V) × Nat) :=
  let start := t
  match validate_callers data with
  | .error e => .err e
  | .ok data' =>
    let callers := extractCallers data'
    let defn := definition.getD {}
    let callers := if defn.clean_before then callers.map Caller.clean else callers
    let callers := if defn.reset_before then callers.map Caller.reset else callers
    let started := startAll callers 0 t
    match await_completion started defn t 1 with
    | Option.none => .diverge
    | some (waiting, t2) =>
      let results := started.map fun c => (c, c.result)
      let finals := if defn.reset_after then started.map Caller.reset else started
      let finals := if defn.clean_after then finals.map Caller.clean else finals
      .ok ({ results := results
             time := { start := start, «end» := t2 }
             waiting := waiting
             definition := defn },
           finals, t2)

/-! ### Concrete objects used by witnesses and counterexamples -/

/-- A callable (identity tag 1) that always raises. -/
def failFunc : Func Nat := { fid := 1, run := fun _ _ => .error "boom" }

/-- A fresh caller wrapping `failFunc`. -/
def failCaller : Caller Nat := Caller.init failFunc

/-- A callable (identity tag 7) that always returns 0. -/
def idFunc : Func Nat := { fid := 7, run := fun _ _ => .ok 0 }

/-- A callable (identity tag 2) that always returns 42. -/
def okFunc : Func Nat := { fid := 2, run := fun _ _ => .ok 42 }

/-- A caller with identifier `"x"`. -/
def callerX : Caller Nat := Caller.init okFunc (.str "x")

/-- A caller with identifier `"y"`. -/
def callerY : Caller Nat := Caller.init okFunc (.str "y")

/-- A sample result entry. -/
def resY : CallResult Nat :=
  { returns := some 42, thread := some 0, time := some { start := 0, «end» := 0 } }

/-- A sample result set holding `callerX` (no result) and `callerY`. -/
def crEx : CallsResults Nat :=
  { results := [(callerX, Option.none), (callerY, some resY)]
    time := { start := 0, «end» := 0 }
    waiting := { start := 0, «end» := 0 }
    definition := {} }

/-! ### Basic frame lemmas -/

@[simp] theorem clean_target (c : Caller V) : c.clean.target = c.target := rfl

@[simp] theorem clean_args (c : Caller V) : c.clean.args = c.args := rfl

@[simp] theorem clean_kwargs (c : Caller V) : c.clean.kwargs = c.kwargs := rfl

@[simp] theorem reset_target (c : Caller V) : c.reset.target = c.target := rfl

@[simp] theorem reset_args (c : Caller V) : c.reset.args = c.args := rfl

@[simp] theorem reset_kwargs (c : Caller V) : c.reset.kwargs = c.kwargs := rfl

/-! ### Claim theorems -/

/-- **C1.** `Caller.__call__` truthy-override policy: the target is applied
to the override args/kwargs when they are non-empty and to the stored
args/kwargs when the overrides are empty; the chosen values are also stored
back on the descriptor (so a non-empty override replaces the stored
args/kwargs for subsequent calls); and a call with an empty override is
indistinguishable from a call passing the stored values explicitly. -/
theorem call_truthy_override (c : Caller V) (args : List V)
    (kwargs : List (String × V)) (t : Nat) :
    ((c.call args kwargs t).1.args = if args.isEmpty then c.args else args) ∧
    ((c.call args kwargs t).1.kwargs =
      if kwargs.isEmpty then c.kwargs else kwargs) ∧
    ((c.call args kwargs t).2 =
      (c.target.run (if args.isEmpty then c.args else args)
          (if kwargs.isEmpty then c.kwargs else kwargs)).map fun v =>
        { returns := some v, thread := c.thread
          time := some { start := t, «end» := t } }) ∧
    c.call [] kwargs t = c.call c.args kwargs t ∧
    c.call args [] t = c.call args c.kwargs t := by
  refine ⟨?_, ?_, ?_, ?_, ?_⟩ <;>
    · unfold Caller.call
      cases h : c.target.run (if args.isEmpty then c.args else args)
          (if kwargs.isEmpty then c.kwargs else kwargs) <;>
        simp_all [Except.map, ite_self]

/-- **C3.** When the target raises, `Caller.__call__` propagates the
exception uncaught, does not change the `complete` flag (in particular does
not set it to true), and does not store a `CallResult` (`_result` is
unchanged). -/
theorem call_error_propagates (c : Caller V) (args : List V)
    (kwargs : List (String × V)) (t : Nat) (e : String)
    (h : c.target.run (if args.isEmpty then c.args else args)
        (if kwargs.isEmpty then c.kwargs else kwargs) = .error e) :
    (c.call args kwargs t).2 = .error e ∧
    (c.call args kwargs t).1.complete = c.complete ∧
    (c.call args kwargs t).1.result = c.result := by
  unfold Caller.call
  simp [h]

/-- Witness for `call_error_propagates` at a concrete failing caller. -/
theorem call_error_propagates_witness :
    (failCaller.call [] [] 0).2 = .error "boom" ∧
    (failCaller.call [] [] 0).1.complete = failCaller.complete ∧
    (failCaller.call [] [] 0).1.result = failCaller.result :=
  call_error_propagates failCaller [] [] 0 "boom" rfl

/-- **C5 (counterexample).** A descriptor constructed with the explicit
identifier `0` does not store `0`: Python's `identifier or self.target`
replaces any falsy explicit identifier with the target. -/
theorem init_identifier_claim_counterexample :
    (Caller.init idFunc (.int 0) [] []).identifier ≠ .int 0 := by
  decide

/-- **C5 (amended).** The stored identifier equals the explicit argument
exactly when that argument is truthy; a falsy explicit identifier (`None`,
`False`, `0`, `""`) is replaced by the target callable, just as when no
identifier is supplied (the default argument is `None`). -/
theorem init_identifier (target : Func V) (identifier : Ident)
    (args : List V) (kwargs : List (String × V)) :
    (Caller.init target identifier args kwargs).identifier =
      if identifier.truthy then identifier else .func target.fid := rfl

/-- **C8.** `reset` clears the `called` and `complete` flags, leaves the
stored result and worker handle unchanged, and is idempotent. -/
theorem reset_clears_flags_only (c : Caller V) :
    c.reset.called = false ∧ c.reset.complete = false ∧
    c.reset.result = c.result ∧ c.reset.thread = c.thread ∧
    c.reset.reset = c.reset :=
  ⟨rfl, rfl, rfl, rfl, rfl⟩

/-- **C9.** `clean` clears the worker handle and the result reference:
after `clean`, `result` is `None` whatever value it held before. -/
theorem clean_clears_thread_and_result (c : Caller V) :
    c.clean.thread = Option.none ∧ c.clean.result = Option.none :=
  ⟨rfl, rfl⟩

/-- When the exit condition never becomes false the polling loop runs the
fuel out: with `wait` set and a caller incomplete, `awaitLoop` returns
`Option.none` for every fuel. -/
theorem awaitLoop_none_of_busy (callers : List (Caller V))
    (d : CallDefinition)
    (h : (d.wait && !(callers.all fun c => c.complete)) = true) :
    ∀ t fuel, awaitLoop callers d t fuel = Option.none := by
  intro t fuel
  induction fuel generalizing t with
  | zero => rfl
  | succ n ih => simp [awaitLoop, h, ih]

/-- **C7.** With `wait = false` the completion waiter returns immediately
(on the first check, with any positive fuel), without sleeping, with a
zero-duration record: start equals end equals the entry clock. -/
theorem await_completion_no_wait (callers : List (Caller V))
    (d : CallDefinition) (t fuel : Nat) (h : d.wait = false) :
    await_completion callers d t (fuel + 1) =
      some ({ start := t, «end» := t }, t) := by
  simp [await_completion, awaitLoop, h]

/-- Witness for `await_completion_no_wait` at a concrete policy. -/
theorem await_completion_no_wait_witness :
    await_completion ([] : List (Caller Nat)) { wait := false } 5 1 =
      some ({ start := 5, «end» := 5 }, 5) :=
  await_completion_no_wait [] { wait := false } 5 0 rfl

/-- **C10.** In the sequential embedding the polling loop exits on its
first completion check — returning the entry clock unchanged — exactly
when `wait` is false or every caller is complete (vacuously so for the
empty collection); when `wait` is true and some caller is incomplete it
never terminates, whatever the fuel. -/
theorem awaitLoop_first_check (callers : List (Caller V))
    (d : CallDefinition) (t : Nat) :
    (∀ fuel, awaitLoop callers d t (fuel + 1) = some t ↔
      (d.wait = false ∨ (callers.all fun c => c.complete) = true)) ∧
    ((d.wait = true ∧ ∃ c ∈ callers, c.complete = false) →
      ∀ fuel, awaitLoop callers d t fuel = Option.none) := by
  constructor
  · intro fuel
    constructor
    · intro hsome
      by_contra hneg
      push_neg at hneg
      have hbusy : (d.wait && !(callers.all fun c => c.complete)) = true := by
        simp [hneg.1, hneg.2]
      rw [awaitLoop_none_of_busy callers d hbusy t (fuel + 1)] at hsome
      exact Option.noConfusion hsome
    · intro hcond
      have hquiet : (d.wait && !(callers.all fun c => c.complete)) = false := by
        rcases hcond with h | h <;> simp [h]
      simp [awaitLoop, hquiet]
  · intro ⟨hw, c, hc, hcomp⟩ fuel
    refine awaitLoop_none_of_busy callers d ?_ t fuel
    have : (callers.all fun c => c.complete) = false := by
      rw [List.all_eq_false]
      exact ⟨c, hc, by simp [hcomp]⟩
    simp [hw, this]

/-- Witness for `awaitLoop_first_check`: with the default policy
(`wait = true`) and an incomplete caller the loop never returns; with an
empty collection it exits on the first check. -/
theorem awaitLoop_first_check_witness :
    awaitLoop [failCaller] ({} : CallDefinition) 0 5 = Option.none ∧
    awaitLoop ([] : List (Caller Nat)) {} 0 1 = some 0 :=
  ⟨(awaitLoop_first_check [failCaller] {} 0).2 ⟨rfl, failCaller, by simp, rfl⟩ 5,
   ((awaitLoop_first_check [] {} 0).1 0).mpr (Or.inr rfl)⟩

/-- Extraction after validation is the identity on genuine caller lists. -/
theorem extractCallers_map_caller (cs : List (Caller V)) :
    extractCallers (cs.map PyObj.caller) = cs := by
  induction cs with
  | nil => rfl
  | cons c rest ih => simp [extractCallers, List.filterMap_cons] at ih ⊢; exact ih

/-- `Caller.start` on a caller whose target succeeds on the stored
args/kwargs: the started caller is complete and holds the produced
`CallResult`. -/
theorem start_of_ok (c : Caller V) (tid t : Nat) (v : V)
    (h : c.target.run c.args c.kwargs = .ok v) :
    (c.start tid t).complete = true ∧
    (c.start tid t).result =
      some { returns := some v, thread := some tid
             time := some { start := t, «end» := t } } := by
  unfold Caller.start Caller.call
  simp [h]

/-- `startAll` on callers whose targets all succeed: the length is
preserved, every started caller is complete, and the caller at index `i`
holds the `CallResult` of its own target run (worker tag `tid + i`). -/
theorem startAll_spec (cs : List (Caller V)) (tid t : Nat)
    (hok : ∀ c ∈ cs, ∃ v, c.target.run c.args c.kwargs = .ok v) :
    (startAll cs tid t).length = cs.length ∧
    ((startAll cs tid t).all fun c => c.complete) = true ∧
    ∀ i (hi : i < cs.length) (hi2 : i < (startAll cs tid t).length),
      ∃ v,
        (cs.get ⟨i, hi⟩).target.run (cs.get ⟨i, hi⟩).args
          (cs.get ⟨i, hi⟩).kwargs = .ok v ∧
        ((startAll cs tid t).get ⟨i, hi2⟩).result =
          some { returns := some v, thread := some (tid + i)
                 time := some { start := t, «end» := t } } := by
  induction cs generalizing tid with
  | nil => exact ⟨rfl, rfl, fun i hi => absurd hi (Nat.not_lt_zero i)⟩
  | cons c rest ih =>
    obtain ⟨v, hv⟩ := hok c (List.mem_cons_self c rest)
    obtain ⟨hcomp, hres⟩ := start_of_ok c tid t v hv
    obtain ⟨ihlen, ihall, ihpt⟩ :=
      ih (tid + 1) (fun c' hc' => hok c' (List.mem_cons_of_mem c hc'))
    refine ⟨by simp [startAll, ihlen], ?_, ?_⟩
    · simp [startAll, List.all_cons, hcomp, ihall]
    · intro i hi hi2
      cases i with
      | zero => exact ⟨v, hv, by simpa using hres⟩
      | succ j =>
        have hj : j < rest.length := Nat.lt_of_succ_lt_succ hi
        have hj2 : j < (startAll rest (tid + 1) t).length := by
          rw [ihlen]; exact hj
        obtain ⟨w, hw, hwres⟩ := ihpt j hj hj2
        refine ⟨w, hw, ?_⟩
        have harith : tid + 1 + j = tid + (j + 1) := by omega
        simpa [startAll, harith] using hwres

/-- The `clean_before`/`reset_before` phases preserve length and each
caller's target, stored args and stored kwargs. -/
theorem prep_preserves (cs : List (Caller V)) (b1 b2 : Bool) :
    (if b2 then (if b1 then cs.map Caller.clean else cs).map Caller.reset
      else (if b1 then cs.map Caller.clean else cs)).length = cs.length ∧
    ∀ i (hi : i < cs.length)
      (hi2 : i < (if b2 then
          (if b1 then cs.map Caller.clean else cs).map Caller.reset
        else (if b1 then cs.map Caller.clean else cs)).length),
      ((if b2 then (if b1 then cs.map Caller.clean else cs).map Caller.reset
          else (if b1 then cs.map Caller.clean else cs)).get ⟨i, hi2⟩).target =
        (cs.get ⟨i, hi⟩).target ∧
      ((if b2 then (if b1 then cs.map Caller.clean else cs).map Caller.reset
          else (if b1 then cs.map Caller.clean else cs)).get ⟨i, hi2⟩).args =
        (cs.get ⟨i, hi⟩).args ∧
      ((if b2 then (if b1 then cs.map Caller.clean else cs).map Caller.reset
          else (if b1 then cs.map Caller.clean else cs)).get ⟨i, hi2⟩).kwargs =
        (cs.get ⟨i, hi⟩).kwargs := by
  cases b1 <;> cases b2 <;> simp

/-- Validation accepts a collection consisting of genuine callers. -/
theorem validate_callers_map_caller (cs : List (Caller V)) :
    validate_callers (cs.map PyObj.caller) = .ok (cs.map PyObj.caller) := by
  unfold validate_callers
  have hall : (cs.map PyObj.caller).all PyObj.isCaller = true := by
    rw [List.all_eq_true]
    intro x hx
    rcases List.mem_map.mp hx with ⟨c, _, rfl⟩
    rfl
  simp [hall]

/-- Unfolding of `multi_threaded_defined_call` on an all-caller collection
whose started callers are all complete: the run returns normally, zero
abstract time passes (no sleep happens), the snapshot pairs each started
caller with its own `result`, and the final states are the started states
with `reset_after`/`clean_after` applied. -/
theorem mtdc_run_eq (cs : List (Caller V)) (d : CallDefinition) (t : Nat)
    (hall : ((startAll
        (if d.reset_before then
          (if d.clean_before then cs.map Caller.clean else cs).map Caller.reset
        else (if d.clean_before then cs.map Caller.clean else cs)) 0 t).all
      fun c => c.complete) = true) :
    multi_threaded_defined_call (cs.map PyObj.caller) (some d) t =
      .ok ({ results := (startAll
                (if d.reset_before then
                  (if d.clean_before then cs.map Caller.clean else cs).map
                    Caller.reset
                else (if d.clean_before then cs.map Caller.clean else cs)) 0
                t).map fun c => (c, c.result)
             time := { start := t, «end» := t }
             waiting := { start := t, «end» := t }
             definition := d },
           (if d.clean_after then
              (if d.reset_after then
                (startAll
                  (if d.reset_before then
                    (if d.clean_before then cs.map Caller.clean else cs).map
                      Caller.reset
                  else (if d.clean_before then cs.map Caller.clean else cs)) 0
                  t).map Caller.reset
              else startAll
                (if d.reset_before then
                  (if d.clean_before then cs.map Caller.clean else cs).map
                    Caller.reset
                else (if d.clean_before then cs.map Caller.clean else cs)) 0
                t).map Caller.clean
            else
              (if d.reset_after then
                (startAll
                  (if d.reset_before then
                    (if d.clean_before then cs.map Caller.clean else cs).map
                      Caller.reset
                  else (if d.clean_before then cs.map Caller.clean else cs)) 0
                  t).map Caller.reset
              else startAll
                (if d.reset_before then
                  (if d.clean_before then cs.map Caller.clean else cs).map
                    Caller.reset
                else (if d.clean_before then cs.map Caller.clean else cs)) 0
                t)),
           t) := by
  unfold multi_threaded_defined_call
  rw [validate_callers_map_caller]
  simp only [extractCallers_map_caller, Option.getD_some]
  simp [await_completion, awaitLoop, hall]

/-- `List.find?` returns the element at index `i` when the predicate holds
there and fails at every earlier index. -/
theorem find?_eq_get {α : Type} (p : α → Bool) (l : List α) (i : Nat)
    (hi : i < l.length) (h : p (l.get ⟨i, hi⟩) = true)
    (hfirst : ∀ j (hj : j < i), p (l.get ⟨j, Nat.lt_trans hj hi⟩) = false) :
    l.find? p = some (l.get ⟨i, hi⟩) := by
  induction l generalizing i with
  | nil => exact absurd hi (Nat.not_lt_zero i)
  | cons a tl ih =>
    cases i with
    | zero =>
      simp only [List.get] at h
      simp [List.find?, h]
    | succ j =>
      have ha : p a = false := hfirst 0 (Nat.succ_pos j)
      have hj : j < tl.length := Nat.lt_of_succ_lt_succ hi
      have htl : tl.find? p = some (tl.get ⟨j, hj⟩) :=
        ih j hj h (fun k hk => hfirst (k + 1) (Nat.succ_lt_succ hk))
      simp [List.find?, ha, htl]

/-- **C6.** The result-set lookups scan the mapping linearly: they return
the first entry whose caller's identifier equals the argument
(`CallsResults.caller` the descriptor, `CallsResults.result` its mapped
result), and when no entry matches they raise a `ValueError` whose message
lists all known identifiers. -/
theorem callsResults_lookup_spec (cr : CallsResults V) (idr : Ident) :
    (∀ i (hi : i < cr.results.length),
      (cr.results.get ⟨i, hi⟩).1.identifier = idr →
      (∀ j (hj : j < i),
        (cr.results.get ⟨j, Nat.lt_trans hj hi⟩).1.identifier ≠ idr) →
      cr.caller idr = .ok (cr.results.get ⟨i, hi⟩).1 ∧
      CallsResults.result cr idr = .ok (cr.results.get ⟨i, hi⟩).2) ∧
    ((∀ p ∈ cr.results, p.1.identifier ≠ idr) →
      cr.caller idr = .error (cr.results.map fun p => p.1.identifier) ∧
      CallsResults.result cr idr =
        .error (cr.results.map fun p => p.1.identifier)) := by
  constructor
  · intro i hi hid hfirst
    have hfind : cr.results.find? (fun p => p.1.identifier == idr) =
        some (cr.results.get ⟨i, hi⟩) := by
      apply find?_eq_get
      · simpa using hid
      · intro j hj
        simpa using hfirst j hj
    constructor <;> simp [CallsResults.caller, CallsResults.result, hfind]
  · intro hnone
    have hfind : cr.results.find? (fun p => p.1.identifier == idr) =
        Option.none := by
      rw [List.find?_eq_none]
      intro p hp
      simp [hnone p hp]
    constructor <;> simp [CallsResults.caller, CallsResults.result, hfind]

/-- Witness for `callsResults_lookup_spec`: in `crEx`, identifier `"y"`
finds the second entry and identifier `"z"` fails listing `"x"` and
`"y"`. -/
theorem callsResults_lookup_spec_witness :
    (crEx.caller (.str "y") = .ok callerY ∧
      CallsResults.result crEx (.str "y") = .ok (some resY)) ∧
    (crEx.caller (.str "z") = .error [.str "x", .str "y"] ∧
      CallsResults.result crEx (.str "z") = .error [.str "x", .str "y"]) := by
  refine ⟨?_, ?_⟩
  · have hi : (1 : Nat) < crEx.results.length := by decide
    have hid : (crEx.results.get ⟨1, by decide⟩).1.identifier = .str "y" := by
      decide
    have h0 : (crEx.results.get ⟨0, by decide⟩).1.identifier ≠ .str "y" := by
      decide
    exact (callsResults_lookup_spec crEx (.str "y")).1 1 hi hid
      (fun j hj => by
        have hj0 : j = 0 := Nat.lt_one_iff.mp hj
        subst hj0
        exact h0)
  · exact (callsResults_lookup_spec crEx (.str "z")).2 (fun p hp => by
      fin_cases hp <;> decide)

/-- **C4.** When the input collection contains an element that is not a
`Caller` instance, the orchestrator raises the validation `ValueError`
synchronously — before any `clean`/`reset`/`start` is applied, as the
error branch is taken before those phases, so no worker thread is started
— and the error message names the input collection, hence in particular
the offending value, which belongs to the payload. -/
theorem mtdc_validation_error (data : List (PyObj V))
    (d : Option CallDefinition) (t : Nat) (x : PyObj V)
    (hx : x ∈ data) (hnc : x.isCaller = false) :
    ∃ payload, multi_threaded_defined_call data d t = .err (.valueError payload) ∧
      x ∈ payload := by
  refine ⟨data, ?_, hx⟩
  have hall : data.all PyObj.isCaller = false := by
    rw [List.all_eq_false]
    exact ⟨x, hx, by simp [hnc]⟩
  simp [multi_threaded_defined_call, validate_callers, hall]

/-- **C2.** With `clean_after = true` (and targets that succeed, so that
results are captured at all), `multi_threaded_defined_call` returns
normally and its snapshot — taken after the completion wait and before the
post-run actions — still maps the caller at each index to the `CallResult`
carrying that caller's return value, even though every final caller state
has had its own `result` field cleared by the post-run clean. -/
theorem mtdc_snapshot_survives_clean_after (cs : List (Caller V))
    (d : CallDefinition) (t : Nat)
    (hclean : d.clean_after = true)
    (hok : ∀ c ∈ cs, ∃ v, c.target.run c.args c.kwargs = .ok v) :
    ∃ cr finals t2,
      multi_threaded_defined_call (cs.map PyObj.caller) (some d) t =
        .ok (cr, finals, t2) ∧
      cr.results.length = cs.length ∧
      (∀ i (hi : i < cs.length) (hi2 : i < cr.results.length),
        ∃ v r,
          (cs.get ⟨i, hi⟩).target.run (cs.get ⟨i, hi⟩).args
            (cs.get ⟨i, hi⟩).kwargs = .ok v ∧
          (cr.results.get ⟨i, hi2⟩).2 = some r ∧ r.returns = some v) ∧
      (∀ c ∈ finals, c.result = Option.none) := by
  obtain ⟨hlen2, hpt2⟩ := prep_preserves cs d.clean_before d.reset_before
  have hok2 : ∀ c' ∈ (if d.reset_before then
        (if d.clean_before then cs.map Caller.clean else cs).map Caller.reset
      else (if d.clean_before then cs.map Caller.clean else cs)),
      ∃ v, c'.target.run c'.args c'.kwargs = .ok v := by
    intro c' hc'
    rcases List.mem_iff_get.mp hc' with ⟨⟨i, hi2⟩, rfl⟩
    have hi : i < cs.length := hlen2 ▸ hi2
    obtain ⟨ht, ha, hk⟩ := hpt2 i hi hi2
    rw [ht, ha, hk]
    exact hok _ (List.get_mem cs i hi)
  obtain ⟨hslen, hsall, hspt⟩ := startAll_spec _ 0 t hok2
  refine ⟨_, _, _, mtdc_run_eq cs d t hsall, ?_, ?_, ?_⟩
  · simp [hslen, hlen2]
  · intro i hi hi2
    have hi2s : i < (startAll (if d.reset_before then
        (if d.clean_before then cs.map Caller.clean else cs).map Caller.reset
      else (if d.clean_before then cs.map Caller.clean else cs)) 0 t).length := by
      simpa using hi2
    have hi2p : i < (if d.reset_before then
        (if d.clean_before then cs.map Caller.clean else cs).map Caller.reset
      else (if d.clean_before then cs.map Caller.clean else cs)).length :=
      hslen ▸ hi2s
    obtain ⟨ht, ha, hk⟩ := hpt2 i hi hi2p
    obtain ⟨v, hv, hres⟩ := hspt i hi2p hi2s
    rw [ht, ha, hk] at hv
    refine ⟨v, { returns := some v, thread := some (0 + i)
                 time := some { start := t, «end» := t } }, hv, ?_, rfl⟩
    simpa using hres
  · intro c hc
    rw [hclean] at hc
    simp only [if_true] at hc
    rcases List.mem_map.mp hc with ⟨c', _, rfl⟩
    rfl

/-- Witness for `mtdc_snapshot_survives_clean_after`: one caller wrapping
a target that returns 42, run with `clean_after := true`. -/
theorem mtdc_snapshot_survives_clean_after_witness :
    ∃ cr finals t2,
      multi_threaded_defined_call [PyObj.caller callerX]
          (some { clean_after := true }) 0 = .ok (cr, finals, t2) ∧
      cr.results.length = [callerX].length ∧
      (∀ i (hi : i < [callerX].length) (hi2 : i < cr.results.length),
        ∃ v r,
          ([callerX].get ⟨i, hi⟩).target.run ([callerX].get ⟨i, hi⟩).args
            ([callerX].get ⟨i, hi⟩).kwargs = .ok v ∧
          (cr.results.get ⟨i, hi2⟩).2 = some r ∧ r.returns = some v) ∧
      (∀ c ∈ finals, c.result = Option.none) := by
  have h := mtdc_snapshot_survives_clean_after [callerX] { clean_after := true }
    0 rfl (fun c hc => by
      rcases List.mem_singleton.mp hc with rfl
      exact ⟨42, rfl⟩)
  simpa using h

/-- Witness for `mtdc_validation_error`: a collection holding a genuine
caller and the integer 3. -/
theorem mtdc_validation_error_witness :
    ∃ payload,
      multi_threaded_defined_call [PyObj.caller callerX, PyObj.other (.int 3)]
          Option.none 0 = .err (.valueError payload) ∧
      PyObj.other (.int 3) ∈ payload :=
  mtdc_validation_error [PyObj.caller callerX, PyObj.other (.int 3)]
    Option.none 0 (.other (.int 3)) (by simp) rfl

end Multithreading
